import Mathlib

/- Shallow embedding of the batch processing engine of the scraper-etico
repository (src/src/batch_processor.py and src/src/scraper_etico.py).

External effects (robots.txt lookups, HTTP fetches, disk writes, wall-clock
time) are modelled by explicit oracle parameters; Python floats used for
delays are modelled as rationals. -/

/-- Python `urlparse(url).netloc` for ordinary `scheme://host/path` URLs: the
text between the first `//` and the next `/` (empty when the URL has no `//`).
Used by `BatchResult.__post_init__` to derive the domain field. -/
def netloc (url : String) : String :=
  match url.splitOn "//" with
  | _ :: rest :: _ => (rest.splitOn "/").headD ""
  | _ => ""

/-- Container for individual URL processing results
(`BatchResult` dataclass, batch_processor.py lines 67-95).
`timestamp` and the enrichment report (`robots_analysis`) are external data
not used by any claim and are omitted; `response_time` is wall-clock time,
modelled as an uninformative constant where set. -/
structure BatchResult where
  url : String
  success : Bool
  status_code : Option Nat := none
  response_size : Option Nat := none
  response_time : Option ℚ := none
  robots_allowed : Option Bool := none
  crawl_delay : Option ℚ := none
  error_type : Option String := none
  error_message : Option String := none
  domain : String := ""
  processed_by_thread : Option String := none
deriving Repr, DecidableEq

/-- State container for batch job persistence and resuming
(`BatchJobState` dataclass, batch_processor.py lines 98-117). Python sets
become `Finset String`; datetimes are modelled as rationals (values are never
inspected by the engine). -/
structure BatchJobState where
  job_id : String
  urls : List String := []
  completed_urls : Finset String := ∅
  failed_urls : Finset String := ∅
  results : List BatchResult := []
  start_time : Option ℚ := none
  last_save_time : Option ℚ := none
  total_urls : Nat := 0
  processed_count : Nat := 0
  max_workers : Nat := 5
  delay_per_domain : ℚ := 1
  analyze_robots : Bool := true
deriving DecidableEq

/-- `BatchJobState.completion_percentage` (batch_processor.py lines 119-124). -/
def BatchJobState.completion_percentage (s : BatchJobState) : ℚ :=
  if s.total_urls = 0 then 0
  else ((s.processed_count : ℚ) / (s.total_urls : ℚ)) * 100

/-- `BatchJobState.remaining_urls` (batch_processor.py lines 126-129). -/
def BatchJobState.remaining_urls (s : BatchJobState) : List String :=
  s.urls.filter (fun url => decide (url ∉ s.completed_urls ∧ url ∉ s.failed_urls))

/-- Oracle for the external collaborators consumed by the core, per spec §4.2
and §6: robots.txt permission (`ScraperEtico.can_fetch`, deterministic within a
run thanks to the robots cache), crawl-delay lookup
(`ScraperEtico.get_crawl_delay`), and the HTTP fetch outcome
(`some (status_code, content_length)` when `requests.get` succeeds and
`raise_for_status` passes, `none` on any transport failure), together with the
scraper's configured `default_delay`. -/
structure ScraperEnv where
  canFetch : String → Bool
  crawlDelay : String → Option ℚ
  fetchResult : String → Option (Nat × Nat)
  default_delay : ℚ

/-- Delay selection of `ScraperEtico._apply_rate_limit` (scraper_etico.py line
152): `delay = custom_delay if custom_delay is not None else self.default_delay`.
An explicit 0.0 is honored as a literal zero delay. -/
def rate_limit_delay (custom_delay : Option ℚ) (default_delay : ℚ) : ℚ :=
  match custom_delay with
  | some d => d
  | none => default_delay

/-- Delay selection of `BatchProcessor._apply_domain_rate_limit`
(batch_processor.py line 214): `delay = custom_delay or self.scraper.default_delay`.
A Python float 0.0 is falsy, so an explicit zero falls back to the default. -/
def domain_rate_limit_delay (custom_delay : Option ℚ) (default_delay : ℚ) : ℚ :=
  match custom_delay with
  | some d => if d = 0 then default_delay else d
  | none => default_delay

/-- Outcome of `ScraperEtico.get` (scraper_etico.py lines 163-229): `none`
when robots.txt disallows the URL (with `check_robots`) or the request fails
for transport reasons, otherwise the fetch outcome. The `custom_delay`
argument of `get` only affects request pacing, never the outcome, so it does
not appear here. -/
def scraper_get (env : ScraperEnv) (url : String) (check_robots : Bool) :
    Option (Nat × Nat) :=
  if check_robots && !(env.canFetch url) then none
  else env.fetchResult url

/-- The effective delay computed in `BatchProcessor._process_single_url`
(batch_processor.py lines 249-255): the caller's custom delay, or — when that
is absent and robots analysis is enabled — the crawl delay supplied by
robots.txt, when any. -/
def effective_delay (env : ScraperEnv) (url : String) (analyze_robots : Bool)
    (custom_delay : Option ℚ) : Option ℚ :=
  match custom_delay with
  | some d => some d
  | none => if analyze_robots then env.crawlDelay url else none

/-- The delay used to gate the URL's domain in the batch-level rate limiter:
`_process_single_url` passes the effective delay to
`_apply_domain_rate_limit` (batch_processor.py line 257), which applies its
truthiness fallback. -/
def gate_delay (env : ScraperEnv) (url : String) (analyze_robots : Bool)
    (custom_delay : Option ℚ) : ℚ :=
  domain_rate_limit_delay (effective_delay env url analyze_robots custom_delay)
    env.default_delay

/-- `BatchProcessor._process_single_url` (batch_processor.py lines 225-307):
builds the result record for one URL. Every exception inside the body is
caught and recorded, so the function always returns a record; the pathological
case in which the worker raises before the record exists is modelled at the
runner level by `TaskOutcome.raised`. -/
def process_single_url (env : ScraperEnv) (url : String) (analyze_robots : Bool)
    (custom_delay : Option ℚ) : BatchResult :=
  let recorded_crawl : Option ℚ :=
    match custom_delay with
    | some _ => none
    | none => if analyze_robots then env.crawlDelay url else none
  match scraper_get env url true with
  | some sc =>
      { url := url, success := true, status_code := some sc.1,
        response_size := some sc.2, response_time := some 0,
        robots_allowed := some true, crawl_delay := recorded_crawl,
        domain := netloc url, processed_by_thread := some "worker" }
  | none =>
      let allowed := env.canFetch url
      { url := url, success := false, response_time := some 0,
        robots_allowed := some allowed, crawl_delay := recorded_crawl,
        error_type := some (if allowed then "request_failed" else "robots_disallowed"),
        error_message := some (if allowed then "HTTP request failed"
                               else "Access disallowed by robots.txt"),
        domain := netloc url, processed_by_thread := some "worker" }

/-- Arrival of one completed future in the `as_completed` loop of
`process_batch`: either the worker returned a record, or `future.result()`
re-raised an exception that escaped the worker function. -/
inductive TaskOutcome where
  | ok (r : BatchResult)
  | raised
deriving Repr, DecidableEq

/-- One completed task as seen by the runner: the URL the future was submitted
for (`future_to_url[future]`) and its outcome. -/
structure TaskEvent where
  url : String
  outcome : TaskOutcome
deriving Repr, DecidableEq

/-- The URL a task event was submitted for. -/
def TaskEvent.toUrl (ev : TaskEvent) : String := ev.url

/-- Disk behaviour of one run: the `save_state_interval` argument of
`process_batch`, which periodic checkpoint writes fail (indexed by the
`processed_count` at which the write happens), and whether the unconditional
final checkpoint write fails. -/
structure RunCfg where
  save_state_interval : Nat
  saveFails : Nat → Bool
  finalSaveFails : Bool

/-- Whether the periodic checkpoint step
`if job_state.processed_count % save_state_interval == 0: self.save_job_state(...)`
(batch_processor.py lines 394-395) raises: with interval 0 the modulo itself
raises ZeroDivisionError; otherwise the save is attempted when due and raises
iff the disk write fails (`save_job_state` logs the error and re-raises). -/
def periodic_save_raises (cfg : RunCfg) (processed : Nat) : Bool :=
  if cfg.save_state_interval = 0 then true
  else if processed % cfg.save_state_interval = 0 then cfg.saveFails processed
  else false

/-- One iteration of the future-collection loop of `BatchProcessor.process_batch`
(batch_processor.py lines 372-403). On a normal outcome the record is appended,
the URL is added to exactly one of the two sets and `processed_count` grows;
if the periodic checkpoint then raises, the broad `except` on line 397 runs on
the already-updated state, adding the URL to `failed_urls` (again) and
incrementing `processed_count` a second time. On a raised future only the
`except` block runs: no record is appended. -/
def stepEvent (cfg : RunCfg) (s : BatchJobState) (ev : TaskEvent) : BatchJobState :=
  match ev.outcome with
  | TaskOutcome.ok r =>
      let s1 : BatchJobState :=
        { s with results := s.results ++ [r],
                 completed_urls := if r.success then insert ev.url s.completed_urls
                                   else s.completed_urls,
                 failed_urls := if r.success then s.failed_urls
                                else insert ev.url s.failed_urls,
                 processed_count := s.processed_count + 1 }
      if periodic_save_raises cfg s1.processed_count then
        { s1 with failed_urls := insert ev.url s1.failed_urls,
                  processed_count := s1.processed_count + 1 }
      else s1
  | TaskOutcome.raised =>
      { s with failed_urls := insert ev.url s.failed_urls,
               processed_count := s.processed_count + 1 }

/-- The whole future-collection loop, folding the completed tasks in arrival
order over the job state. -/
def runEvents (cfg : RunCfg) (s : BatchJobState) (evs : List TaskEvent) :
    BatchJobState :=
  evs.foldl (stepEvent cfg) s

/-- Initial `BatchJobState` built at the top of `process_batch`
(batch_processor.py lines 339-347). `delay_per_domain` is
`custom_delay or self.scraper.default_delay`, the same Python truthiness as in
`_apply_domain_rate_limit`. -/
def initJobState (job_id : String) (urls : List String) (max_workers : Nat)
    (analyze_robots : Bool) (custom_delay : Option ℚ) (default_delay : ℚ) :
    BatchJobState :=
  { job_id := job_id, urls := urls, completed_urls := ∅, failed_urls := ∅,
    results := [], start_time := some 0, last_save_time := none,
    total_urls := urls.length, processed_count := 0,
    max_workers := max_workers,
    delay_per_domain := domain_rate_limit_delay custom_delay default_delay,
    analyze_robots := analyze_robots }

/-- `BatchProcessor.process_batch` (batch_processor.py lines 309-422) for a
given arrival order `evs` of completed tasks. After the loop the final
checkpoint (lines 409-411) sets `last_save_time` and writes the state
unconditionally; a failing final write propagates out of `process_batch`
because `save_job_state` logs the error and re-raises — modelled as
`Except.error`. -/
def process_batch (cfg : RunCfg) (job_id : String) (urls : List String)
    (max_workers : Nat) (analyze_robots : Bool) (custom_delay : Option ℚ)
    (default_delay : ℚ) (evs : List TaskEvent) : Except String BatchJobState :=
  let s0 := initJobState job_id urls max_workers analyze_robots custom_delay
    default_delay
  let sF := runEvents cfg s0 evs
  if cfg.finalSaveFails then Except.error "checkpoint write failed"
  else Except.ok { sF with last_save_time := some 1 }

/-- On-disk state directory of the `BatchProcessor`: one pickled
`BatchJobState` snapshot per job id. -/
abbrev StateStore := List (String × BatchJobState)

/-- `BatchProcessor.save_job_state` (batch_processor.py lines 477-498) when the
disk write succeeds: pickling a `BatchJobState` and writing it to
`{job_id}.pkl` overwrites any prior snapshot for that id. The failure mode
(write raises: logged and re-raised) is modelled in `process_batch`/`RunCfg`. -/
def save_job_state (store : StateStore) (s : BatchJobState) : StateStore :=
  (s.job_id, s) :: store.filter (fun p => !(p.1 == s.job_id))

/-- `BatchProcessor.load_job_state` (batch_processor.py lines 500-525):
unpickling the snapshot stored under the given job id, `none` when no snapshot
exists. -/
def load_job_state (store : StateStore) (job_id : String) :
    Option BatchJobState :=
  (store.find? (fun p => p.1 == job_id)).map Prod.snd

/-- Merge step of `resume_batch_job` (batch_processor.py lines 466-470): the
sub-run's results are appended, its URL sets are unioned in, and
`processed_count` is recomputed as the length of the merged results list. -/
def mergeStates (s sub : BatchJobState) : BatchJobState :=
  { s with results := s.results ++ sub.results,
           completed_urls := s.completed_urls ∪ sub.completed_urls,
           failed_urls := s.failed_urls ∪ sub.failed_urls,
           processed_count := (s.results ++ sub.results).length,
           last_save_time := some 1 }

/-- `BatchProcessor.resume_batch_job` (batch_processor.py lines 424-475): load
the saved state (ValueError when absent), return it unchanged when no URLs
remain, otherwise run `process_batch` over the remaining URLs (with the saved
configuration) and merge; the final `save_job_state` on line 473 re-raises on a
failing disk write, like the final save of `process_batch`. -/
def resume_batch_job (cfg : RunCfg) (store : StateStore) (job_id : String)
    (default_delay : ℚ) (evs : List TaskEvent) : Except String BatchJobState :=
  match load_job_state store job_id with
  | none => Except.error "Job state not found"
  | some s =>
      if s.remaining_urls.isEmpty then Except.ok s
      else
        match process_batch cfg (job_id ++ "_resume") s.remaining_urls
            s.max_workers s.analyze_robots (some s.delay_per_domain)
            default_delay evs with
        | Except.error e => Except.error e
        | Except.ok sub =>
            if cfg.finalSaveFails then Except.error "checkpoint write failed"
            else Except.ok (mergeStates s sub)

/-- A run in which every periodic checkpoint write succeeds and the save
interval is nonzero (so the modulo check itself cannot raise). -/
def NoPeriodicSaveFailure (cfg : RunCfg) : Prop :=
  cfg.save_state_interval ≠ 0 ∧ ∀ n, cfg.saveFails n = false

/-- Number of events whose future returned a record (these are exactly the
events that append to the results list). -/
def okCount (evs : List TaskEvent) : Nat :=
  (evs.filter fun ev =>
    match ev.outcome with
    | TaskOutcome.ok _ => true
    | TaskOutcome.raised => false).length

/-- The URLs of a list of task events, in arrival order. -/
def eventUrls (evs : List TaskEvent) : List String := evs.map TaskEvent.url

/-- A run configuration whose disk never fails (interval 10, the source's
default). -/
def cfgNoFail : RunCfg :=
  { save_state_interval := 10, saveFails := fun _ => false,
    finalSaveFails := false }

/-- A run whose periodic checkpoint writes all fail (interval 1) while the
final write succeeds. -/
def cfgPeriodicFail : RunCfg :=
  { save_state_interval := 1, saveFails := fun _ => true,
    finalSaveFails := false }

/-- A run whose final checkpoint write fails. -/
def cfgFinalFail : RunCfg :=
  { save_state_interval := 10, saveFails := fun _ => false,
    finalSaveFails := true }

/-- External world in which every URL is permitted and every fetch succeeds
with status 200 and a 3-byte body. -/
def envOk : ScraperEnv :=
  { canFetch := fun _ => true, crawlDelay := fun _ => none,
    fetchResult := fun _ => some (200, 3), default_delay := 1 }

/-- External world in which robots.txt disallows every URL. -/
def envDenied : ScraperEnv :=
  { canFetch := fun _ => false, crawlDelay := fun _ => none,
    fetchResult := fun _ => some (200, 3), default_delay := 1 }

/-- External world in which every URL is permitted but every fetch fails for
transport reasons. -/
def envTransportFail : ScraperEnv :=
  { canFetch := fun _ => true, crawlDelay := fun _ => none,
    fetchResult := fun _ => none, default_delay := 1 }

/-- External world whose robots.txt declares crawl-delay 0.5 while the
scraper's configured default delay is 1. -/
def envSlowRobots : ScraperEnv :=
  { canFetch := fun _ => true, crawlDelay := fun _ => some (1/2),
    fetchResult := fun _ => some (200, 3), default_delay := 1 }

/-- A sample URL. -/
def urlA : String := "http://a/x"

/-- The completed task for `urlA` in `envOk`: the worker returns its record. -/
def evOkA : TaskEvent :=
  { url := urlA, outcome := TaskOutcome.ok (process_single_url envOk urlA true none) }

/-- A task whose worker function raised before building its record (Python's
`urlparse` raises ValueError on a malformed IPv6 authority, on the line that
constructs the `BatchResult`, outside the worker's try block). -/
def evRaisedBad : TaskEvent :=
  { url := "http://[bad", outcome := TaskOutcome.raised }

/-- A fresh job state with no URLs. -/
def sEmptyJob : BatchJobState := { job_id := "job1" }

/-- A persisted state of a finished single-URL job: the one URL completed. -/
def sDoneJob : BatchJobState :=
  { job_id := "job1", urls := [urlA], completed_urls := {urlA},
    failed_urls := ∅, results := [process_single_url envOk urlA true none],
    total_urls := 1, processed_count := 1 }

lemma periodic_save_raises_eq_false {cfg : RunCfg}
    (h : NoPeriodicSaveFailure cfg) (n : ℕ) :
    periodic_save_raises cfg n = false := by
  unfold periodic_save_raises
  simp [h.1, h.2]

lemma runEvents_nil (cfg : RunCfg) (s : BatchJobState) :
    runEvents cfg s [] = s := rfl

lemma runEvents_cons (cfg : RunCfg) (s : BatchJobState) (ev : TaskEvent)
    (rest : List TaskEvent) :
    runEvents cfg s (ev :: rest) = runEvents cfg (stepEvent cfg s ev) rest := rfl

lemma stepEvent_total (cfg : RunCfg) (s : BatchJobState) (ev : TaskEvent) :
    (stepEvent cfg s ev).total_urls = s.total_urls := by
  unfold stepEvent
  cases ev.outcome with
  | ok r => dsimp only; split <;> rfl
  | raised => rfl

lemma runEvents_total (cfg : RunCfg) (evs : List TaskEvent) :
    ∀ s : BatchJobState, (runEvents cfg s evs).total_urls = s.total_urls := by
  induction evs with
  | nil => intro s; rfl
  | cons ev rest ih =>
      intro s
      rw [runEvents_cons, ih, stepEvent_total]

lemma stepEvent_processed_noFail {cfg : RunCfg} (h : NoPeriodicSaveFailure cfg)
    (s : BatchJobState) (ev : TaskEvent) :
    (stepEvent cfg s ev).processed_count = s.processed_count + 1 := by
  unfold stepEvent
  cases ev.outcome with
  | ok r => simp [periodic_save_raises_eq_false h]
  | raised => rfl

lemma runEvents_processed_noFail {cfg : RunCfg} (h : NoPeriodicSaveFailure cfg)
    (evs : List TaskEvent) :
    ∀ s : BatchJobState,
      (runEvents cfg s evs).processed_count = s.processed_count + evs.length := by
  induction evs with
  | nil => intro s; rfl
  | cons ev rest ih =>
      intro s
      rw [runEvents_cons, ih, stepEvent_processed_noFail h]
      simp [List.length_cons]
      omega

lemma stepEvent_results_ok (cfg : RunCfg) (s : BatchJobState) {ev : TaskEvent}
    {r : BatchResult} (h : ev.outcome = TaskOutcome.ok r) :
    (stepEvent cfg s ev).results = s.results ++ [r] := by
  unfold stepEvent
  rw [h]
  dsimp only
  split <;> rfl

lemma stepEvent_results_raised (cfg : RunCfg) (s : BatchJobState)
    {ev : TaskEvent} (h : ev.outcome = TaskOutcome.raised) :
    (stepEvent cfg s ev).results = s.results := by
  unfold stepEvent
  rw [h]

lemma okCount_nil : okCount [] = 0 := rfl

lemma okCount_cons (ev : TaskEvent) (rest : List TaskEvent) :
    okCount (ev :: rest) =
      (match ev.outcome with
       | TaskOutcome.ok _ => okCount rest + 1
       | TaskOutcome.raised => okCount rest) := by
  unfold okCount
  cases h : ev.outcome with
  | ok r => simp [List.filter_cons, h]
  | raised => simp [List.filter_cons, h]

lemma runEvents_results_length (cfg : RunCfg) (evs : List TaskEvent) :
    ∀ s : BatchJobState,
      (runEvents cfg s evs).results.length = s.results.length + okCount evs := by
  induction evs with
  | nil => intro s; simp [runEvents_nil, okCount_nil]
  | cons ev rest ih =>
      intro s
      rw [runEvents_cons, ih, okCount_cons]
      cases h : ev.outcome with
      | ok r => rw [stepEvent_results_ok cfg s h]; simp; omega
      | raised => rw [stepEvent_results_raised cfg s h]

lemma okCount_le_length (evs : List TaskEvent) : okCount evs ≤ evs.length :=
  List.length_filter_le _ _

lemma okCount_eq_length {evs : List TaskEvent}
    (h : ∀ ev ∈ evs, ev.outcome ≠ TaskOutcome.raised) :
    okCount evs = evs.length := by
  induction evs with
  | nil => rfl
  | cons ev rest ih =>
      rw [okCount_cons]
      cases hoc : ev.outcome with
      | ok r =>
          simp only [List.length_cons]
          rw [ih fun e he => h e (List.mem_cons_of_mem _ he)]
      | raised => exact absurd hoc (h ev (List.mem_cons_self _ _))

lemma mem_remaining {s : BatchJobState} {u : String}
    (h : u ∈ s.remaining_urls) :
    u ∈ s.urls ∧ u ∉ s.completed_urls ∧ u ∉ s.failed_urls := by
  unfold BatchJobState.remaining_urls at h
  simp only [List.mem_filter, decide_eq_true_eq] at h
  tauto

lemma remaining_nodup {s : BatchJobState} (h : s.urls.Nodup) :
    s.remaining_urls.Nodup :=
  List.Nodup.filter _ h

lemma stepEvent_completed_ok_success {cfg : RunCfg}
    (h : NoPeriodicSaveFailure cfg) (s : BatchJobState) {ev : TaskEvent}
    {r : BatchResult} (hoc : ev.outcome = TaskOutcome.ok r)
    (hs : r.success = true) :
    (stepEvent cfg s ev).completed_urls = insert ev.url s.completed_urls ∧
    (stepEvent cfg s ev).failed_urls = s.failed_urls := by
  unfold stepEvent
  rw [hoc]
  constructor <;> simp [hs, periodic_save_raises_eq_false h]

lemma stepEvent_completed_ok_failure {cfg : RunCfg}
    (h : NoPeriodicSaveFailure cfg) (s : BatchJobState) {ev : TaskEvent}
    {r : BatchResult} (hoc : ev.outcome = TaskOutcome.ok r)
    (hs : r.success = false) :
    (stepEvent cfg s ev).completed_urls = s.completed_urls ∧
    (stepEvent cfg s ev).failed_urls = insert ev.url s.failed_urls := by
  unfold stepEvent
  rw [hoc]
  constructor <;> simp [hs, periodic_save_raises_eq_false h]

lemma stepEvent_completed_raised (cfg : RunCfg) (s : BatchJobState)
    {ev : TaskEvent} (hoc : ev.outcome = TaskOutcome.raised) :
    (stepEvent cfg s ev).completed_urls = s.completed_urls ∧
    (stepEvent cfg s ev).failed_urls = insert ev.url s.failed_urls := by
  unfold stepEvent
  rw [hoc]
  exact ⟨rfl, rfl⟩

lemma runEvents_sets {cfg : RunCfg} (hcfg : NoPeriodicSaveFailure cfg) :
    ∀ (evs : List TaskEvent) (s : BatchJobState),
      (eventUrls evs).Nodup →
      (∀ ev ∈ evs, ev.url ∉ s.completed_urls ∧ ev.url ∉ s.failed_urls) →
      ((runEvents cfg s evs).completed_urls ∪ (runEvents cfg s evs).failed_urls
          = (s.completed_urls ∪ s.failed_urls) ∪ (eventUrls evs).toFinset)
      ∧ ((runEvents cfg s evs).completed_urls.card
            + (runEvents cfg s evs).failed_urls.card
          = s.completed_urls.card + s.failed_urls.card + evs.length)
      ∧ (Disjoint s.completed_urls s.failed_urls →
          Disjoint (runEvents cfg s evs).completed_urls
            (runEvents cfg s evs).failed_urls) := by
  intro evs
  induction evs with
  | nil =>
      intro s _ _
      refine ⟨?_, rfl, fun h => h⟩
      simp [runEvents_nil, eventUrls]
  | cons ev rest ih =>
      intro s hnodup hfresh
      have hu : ev.url ∉ s.completed_urls ∧ ev.url ∉ s.failed_urls :=
        hfresh ev (List.mem_cons_self _ _)
      have hnodup2 : ev.url ∉ eventUrls rest ∧ (eventUrls rest).Nodup := by
        have := hnodup
        rw [eventUrls, List.map_cons, List.nodup_cons] at this
        exact this
      have hne : ∀ ev' ∈ rest, ev'.url ≠ ev.url := by
        intro ev' hmem hEq
        exact hnodup2.1 (by
          rw [eventUrls, List.mem_map]
          exact ⟨ev', hmem, hEq⟩)
      have hsets :
          ((stepEvent cfg s ev).completed_urls = insert ev.url s.completed_urls
            ∧ (stepEvent cfg s ev).failed_urls = s.failed_urls)
          ∨ ((stepEvent cfg s ev).completed_urls = s.completed_urls
            ∧ (stepEvent cfg s ev).failed_urls = insert ev.url s.failed_urls) := by
        cases hoc : ev.outcome with
        | ok r =>
            cases hs : r.success with
            | true => exact Or.inl (stepEvent_completed_ok_success hcfg s hoc hs)
            | false => exact Or.inr (stepEvent_completed_ok_failure hcfg s hoc hs)
        | raised => exact Or.inr (stepEvent_completed_raised cfg s hoc)
      have hfresh' : ∀ ev' ∈ rest,
          ev'.url ∉ (stepEvent cfg s ev).completed_urls
          ∧ ev'.url ∉ (stepEvent cfg s ev).failed_urls := by
        intro ev' hm
        rcases hfresh ev' (List.mem_cons_of_mem _ hm) with ⟨h1, h2⟩
        rcases hsets with ⟨hc, hf⟩ | ⟨hc, hf⟩ <;>
          rw [hc, hf] <;>
          simp [Finset.mem_insert, h1, h2, hne ev' hm]
      obtain ⟨ihu, ihcard, ihdisj⟩ := ih (stepEvent cfg s ev) hnodup2.2 hfresh'
      rw [runEvents_cons]
      refine ⟨?_, ?_, ?_⟩
      · rw [ihu]
        rcases hsets with ⟨hc, hf⟩ | ⟨hc, hf⟩ <;> rw [hc, hf] <;>
          · ext x
            simp [eventUrls, Finset.mem_insert, Finset.mem_union]
      · rw [ihcard]
        rcases hsets with ⟨hc, hf⟩ | ⟨hc, hf⟩ <;> rw [hc, hf]
        · rw [Finset.card_insert_of_not_mem hu.1]
          simp [List.length_cons]
          omega
        · rw [Finset.card_insert_of_not_mem hu.2]
          simp [List.length_cons]
          omega
      · intro hdisj
        apply ihdisj
        rcases hsets with ⟨hc, hf⟩ | ⟨hc, hf⟩ <;> rw [hc, hf]
        · rw [Finset.disjoint_insert_left]
          exact ⟨hu.2, hdisj⟩
        · rw [Finset.disjoint_insert_right]
          exact ⟨hu.1, hdisj⟩

lemma resume_unfold {cfg : RunCfg} {store : StateStore} {job_id : String}
    {dd : ℚ} {evs : List TaskEvent} {s : BatchJobState}
    (hload : load_job_state store job_id = some s) :
    resume_batch_job cfg store job_id dd evs =
      (if s.remaining_urls.isEmpty then Except.ok s
       else
         match process_batch cfg (job_id ++ "_resume") s.remaining_urls
             s.max_workers s.analyze_robots (some s.delay_per_domain)
             dd evs with
         | Except.error e => Except.error e
         | Except.ok sub =>
             if cfg.finalSaveFails then Except.error "checkpoint write failed"
             else Except.ok (mergeStates s sub)) := by
  unfold resume_batch_job
  rw [hload]

lemma resume_cases {cfg : RunCfg} {store : StateStore} {job_id : String}
    {dd : ℚ} {evs : List TaskEvent} {s s' : BatchJobState}
    (hload : load_job_state store job_id = some s)
    (hres : resume_batch_job cfg store job_id dd evs = Except.ok s') :
    (s.remaining_urls = [] ∧ s' = s)
    ∨ (cfg.finalSaveFails = false ∧
        s' = mergeStates s
          { runEvents cfg
              (initJobState (job_id ++ "_resume") s.remaining_urls
                s.max_workers s.analyze_robots (some s.delay_per_domain) dd)
              evs
            with last_save_time := some 1 }) := by
  rw [resume_unfold hload] at hres
  by_cases hemp : s.remaining_urls.isEmpty = true
  · left
    rw [if_pos hemp] at hres
    exact ⟨List.isEmpty_iff.mp hemp, (Except.ok.inj hres).symm⟩
  · right
    rw [if_neg hemp] at hres
    by_cases hfin : cfg.finalSaveFails = true
    · simp [process_batch, hfin] at hres
    · have hfin' : cfg.finalSaveFails = false := by simpa using hfin
      simp only [process_batch, hfin', Bool.false_eq_true, if_false] at hres
      exact ⟨hfin', (Except.ok.inj hres).symm⟩

/-- C1 is false on the code: with robots analysis enabled, no delay override,
a configured default delay of 1 and robots.txt supplying crawl-delay 1/2, the
domain is gated with delay 1/2 — not max(1, 1/2) = 1 as the claim states
(`_apply_domain_rate_limit` never takes a max; the crawl delay simply replaces
the default). -/
theorem C1_counterexample :
    gate_delay envSlowRobots urlA true none = 1/2
    ∧ max envSlowRobots.default_delay (1/2 : ℚ) = 1
    ∧ (1/2 : ℚ) ≠ 1 := by
  refine ⟨?_, ?_, by norm_num⟩
  · simp [gate_delay, effective_delay, domain_rate_limit_delay, envSlowRobots, urlA]
  · simp [envSlowRobots]
    norm_num

/-- C1 (amended): for every URL task run with robots analysis enabled and no
per-URL delay override, the delay used to gate that URL's domain equals the
crawl delay supplied by robots.txt whenever one is supplied and it is nonzero
— even when it is smaller than the configured default — and equals the
configured default delay when no crawl delay is supplied or the supplied value
is zero (a Python-falsy 0.0 falls back to the default). No maximum with the
default is taken. -/
theorem C1_amended (env : ScraperEnv) (url : String) :
    gate_delay env url true none =
      match env.crawlDelay url with
      | some cd => if cd = 0 then env.default_delay else cd
      | none => env.default_delay := by
  unfold gate_delay effective_delay domain_rate_limit_delay
  cases env.crawlDelay url <;> simp

/-- C10: a caller passing custom_delay = 0.0 to the batch path cannot disable
per-domain spacing: `_apply_domain_rate_limit` evaluates
`custom_delay or default` and Python's 0.0 is falsy, so the batch-level
limiter uses the scraper's default delay; the scraper's own internal limiter
inside `get` (`_apply_rate_limit`, `custom_delay if custom_delay is not None
else default`) honors the explicit 0.0 as a literal zero delay. Both sides are
computed from the same effective delay the worker passes along. -/
theorem C10_zero_custom_delay (env : ScraperEnv) (url : String) (az : Bool) :
    domain_rate_limit_delay (effective_delay env url az (some 0))
        env.default_delay = env.default_delay
    ∧ rate_limit_delay (effective_delay env url az (some 0))
        env.default_delay = 0 := by
  constructor <;>
    simp [effective_delay, domain_rate_limit_delay, rate_limit_delay]

/-- C9: a URL refused by the robots.txt policy check yields a record with
success=false, robots_allowed=false and the policy-denial marker
"robots_disallowed" as error kind, and the runner then puts the URL into
failed_urls; a URL whose policy check passes but whose fetch fails for
transport reasons instead gets the distinct kind "request_failed" with
robots_allowed=true. -/
theorem C9_policy_denied_vs_transport (env : ScraperEnv) (url : String)
    (az : Bool) (cd : Option ℚ) (cfg : RunCfg) (s : BatchJobState) :
    (env.canFetch url = false →
      (process_single_url env url az cd).success = false
      ∧ (process_single_url env url az cd).robots_allowed = some false
      ∧ (process_single_url env url az cd).error_type = some "robots_disallowed"
      ∧ url ∈ (stepEvent cfg s
          { url := url,
            outcome := TaskOutcome.ok (process_single_url env url az cd) }).failed_urls)
    ∧ (env.canFetch url = true → env.fetchResult url = none →
      (process_single_url env url az cd).success = false
      ∧ (process_single_url env url az cd).robots_allowed = some true
      ∧ (process_single_url env url az cd).error_type = some "request_failed") := by
  constructor
  · intro h
    have hget : scraper_get env url true = none := by
      simp [scraper_get, h]
    have hsucc : (process_single_url env url az cd).success = false := by
      simp [process_single_url, hget]
    refine ⟨hsucc, ?_, ?_, ?_⟩
    · simp [process_single_url, hget, h]
    · simp [process_single_url, hget, h]
    · unfold stepEvent
      dsimp only
      split <;> simp [hsucc]
  · intro h hf
    have hget : scraper_get env url true = none := by
      simp [scraper_get, h, hf]
    refine ⟨?_, ?_, ?_⟩ <;> simp [process_single_url, hget, h]

/-- C6: resuming a persisted job whose remaining-URL set is empty returns the
loaded state itself, unchanged, whatever tasks the runner could have produced:
`resume_batch_job` returns before running any batch. -/
theorem C6_resume_empty_noop (cfg : RunCfg) (store : StateStore)
    (job_id : String) (dd : ℚ) (evs : List TaskEvent) (s : BatchJobState)
    (hload : load_job_state store job_id = some s)
    (hrem : s.remaining_urls = []) :
    resume_batch_job cfg store job_id dd evs = Except.ok s := by
  rw [resume_unfold hload, if_pos]
  simp [hrem]

/-- Witness for C6 at a concrete finished job. -/
theorem C6_witness :
    load_job_state (save_job_state [] sDoneJob) "job1" = some sDoneJob
    ∧ sDoneJob.remaining_urls = []
    ∧ resume_batch_job cfgNoFail (save_job_state [] sDoneJob) "job1" 1 []
        = Except.ok sDoneJob :=
  ⟨rfl, rfl,
    C6_resume_empty_noop cfgNoFail (save_job_state [] sDoneJob) "job1" 1 []
      sDoneJob rfl rfl⟩

/-- C7: saving a job state and loading it back under its job id returns a
state with the same completed set, the same failed set and the same number of
result records (the snapshot for the id is overwritten and read back whole). -/
theorem C7_checkpoint_roundtrip (store : StateStore) (s : BatchJobState) :
    ∃ s', load_job_state (save_job_state store s) s.job_id = some s'
      ∧ s'.completed_urls = s.completed_urls
      ∧ s'.failed_urls = s.failed_urls
      ∧ s'.results.length = s.results.length := by
  refine ⟨s, ?_, rfl, rfl, rfl⟩
  unfold load_job_state save_job_state
  rw [List.find?_cons_of_pos]
  · rfl
  · simp

/-- C2 is false on the code: when the unconditional final checkpoint write
fails, `save_job_state` logs the error and re-raises, and nothing in
`process_batch` catches it there, so the failure propagates to the caller
(here: the whole single-URL batch errors out instead of returning its state). -/
theorem C2_counterexample :
    process_batch cfgFinalFail "job1" [urlA] 5 true none 1 [evOkA]
      = Except.error "checkpoint write failed" := rfl

/-- C2 (amended): a failing periodic checkpoint write is caught by the
runner's broad per-future handler, so the batch continues over the remaining
tasks and `process_batch` still returns a final state (the handler, however,
re-adds the task's URL to failed_urls and increments processed_count a second
time); only a failure of the final checkpoint write propagates out of
`process_batch`. -/
theorem C2_amended (cfg : RunCfg) (job_id : String) (urls : List String)
    (mw : Nat) (az : Bool) (cd : Option ℚ) (dd : ℚ) (evs : List TaskEvent)
    (h : cfg.finalSaveFails = false) :
    ∃ s, process_batch cfg job_id urls mw az cd dd evs = Except.ok s := by
  refine ⟨{ runEvents cfg (initJobState job_id urls mw az cd dd) evs
            with last_save_time := some 1 }, ?_⟩
  unfold process_batch
  rw [if_neg (by simp [h])]

/-- Witness for C2 (amended): every periodic checkpoint write fails, yet the
batch returns normally. -/
theorem C2_witness :
    cfgPeriodicFail.finalSaveFails = false
    ∧ ∃ s, process_batch cfgPeriodicFail "job1" [urlA] 5 true none 1 [evOkA]
        = Except.ok s :=
  ⟨rfl, C2_amended cfgPeriodicFail "job1" [urlA] 5 true none 1 [evOkA] rfl⟩

/-- C3 is false on the code: when a task's worker function raises (here a
malformed URL whose `urlparse` raises ValueError before the record is built),
the runner-level handler leaves the results list empty — no Failure record
with the exception's type name is appended — although the URL does land in
failed_urls and processed_count grows by one. -/
theorem C3_counterexample :
    (process_batch cfgNoFail "job1" ["http://[bad"] 5 true none 1
        [evRaisedBad]).map
      (fun s => (s.results.length, s.failed_urls.card, s.processed_count))
      = Except.ok (0, 1, 1) := rfl

/-- C3 (amended): an exception escaping the per-task worker function is caught
at the runner level; the URL is added to failed_urls and processed_count is
incremented by one, but no Result Record is appended to the results list and
the exception's type name is only logged, never recorded. -/
theorem C3_amended (cfg : RunCfg) (s : BatchJobState) (ev : TaskEvent)
    (h : ev.outcome = TaskOutcome.raised) :
    (stepEvent cfg s ev).results = s.results
    ∧ (stepEvent cfg s ev).completed_urls = s.completed_urls
    ∧ (stepEvent cfg s ev).failed_urls = insert ev.url s.failed_urls
    ∧ (stepEvent cfg s ev).processed_count = s.processed_count + 1 := by
  unfold stepEvent
  rw [h]
  exact ⟨rfl, rfl, rfl, rfl⟩

/-- Witness for C3 (amended) at a concrete raised task. -/
theorem C3_witness :
    evRaisedBad.outcome = TaskOutcome.raised
    ∧ ((stepEvent cfgNoFail sEmptyJob evRaisedBad).results = sEmptyJob.results
      ∧ (stepEvent cfgNoFail sEmptyJob evRaisedBad).completed_urls
          = sEmptyJob.completed_urls
      ∧ (stepEvent cfgNoFail sEmptyJob evRaisedBad).failed_urls
          = insert evRaisedBad.url sEmptyJob.failed_urls
      ∧ (stepEvent cfgNoFail sEmptyJob evRaisedBad).processed_count
          = sEmptyJob.processed_count + 1) :=
  ⟨rfl, C3_amended cfgNoFail sEmptyJob evRaisedBad rfl⟩

/-- C4 is false on the code for inputs with duplicate URLs: a two-element
batch of the same URL where both fetches succeed ends (final checkpoint and
returned state) with processed_count = 2 but |completed_urls| + |failed_urls|
= 1, because the URL sets deduplicate what the counter does not. -/
theorem C4_counterexample :
    (process_batch cfgNoFail "job1" [urlA, urlA] 5 true none 1
        [evOkA, evOkA]).map
      (fun s => (s.processed_count, s.completed_urls.card + s.failed_urls.card))
      = Except.ok (2, 1) := rfl

/-- C5 is false on the code: with checkpoint interval 1 and a failing periodic
checkpoint write, a successfully fetched URL is first added to completed_urls,
then the broad per-future handler catches the checkpoint error and adds the
same URL to failed_urls — the two sets intersect. -/
theorem C5_counterexample :
    (process_batch cfgPeriodicFail "job1" [urlA] 5 true none 1 [evOkA]).map
      (fun s => s.completed_urls ∩ s.failed_urls)
      = Except.ok {urlA} := rfl

/-- C8 is false on the code: the same failing periodic checkpoint write makes
the handler increment processed_count a second time for the same task, so a
one-URL batch ends with processed_count = 2 and completion_percentage = 200,
outside [0, 100]. -/
theorem C8_counterexample :
    (process_batch cfgPeriodicFail "job1" [urlA] 5 true none 1 [evOkA]).map
      (fun s => s.completion_percentage) = Except.ok 200 := by
  have h1 : process_batch cfgPeriodicFail "job1" [urlA] 5 true none 1 [evOkA]
      = Except.ok
        { job_id := "job1", urls := [urlA], completed_urls := {urlA},
          failed_urls := {urlA},
          results := [process_single_url envOk urlA true none],
          start_time := some 0, last_save_time := some 1, total_urls := 1,
          processed_count := 2, max_workers := 5, delay_per_domain := 1,
          analyze_robots := true } := rfl
  rw [h1]
  simp only [Except.map]
  norm_num [BatchJobState.completion_percentage]

lemma process_batch_ok {cfg : RunCfg} {job_id : String} {urls : List String}
    {mw : Nat} {az : Bool} {cd : Option ℚ} {dd : ℚ} {evs : List TaskEvent}
    {s : BatchJobState}
    (h : process_batch cfg job_id urls mw az cd dd evs = Except.ok s) :
    cfg.finalSaveFails = false
    ∧ s = { runEvents cfg (initJobState job_id urls mw az cd dd) evs
            with last_save_time := some 1 } := by
  by_cases hfin : cfg.finalSaveFails = true
  · simp [process_batch, hfin] at h
  · have hfin' : cfg.finalSaveFails = false := by simpa using hfin
    unfold process_batch at h
    rw [if_neg (by simp [hfin'])] at h
    exact ⟨hfin', (Except.ok.inj h).symm⟩

lemma withLast_fields (x : BatchJobState) :
    ({ x with last_save_time := some 1 } : BatchJobState).completed_urls
        = x.completed_urls
    ∧ ({ x with last_save_time := some 1 } : BatchJobState).failed_urls
        = x.failed_urls
    ∧ ({ x with last_save_time := some 1 } : BatchJobState).processed_count
        = x.processed_count
    ∧ ({ x with last_save_time := some 1 } : BatchJobState).results = x.results
    ∧ ({ x with last_save_time := some 1 } : BatchJobState).total_urls
        = x.total_urls :=
  ⟨rfl, rfl, rfl, rfl, rfl⟩

lemma mergeStates_fields (s sub : BatchJobState) :
    (mergeStates s sub).completed_urls = s.completed_urls ∪ sub.completed_urls
    ∧ (mergeStates s sub).failed_urls = s.failed_urls ∪ sub.failed_urls
    ∧ (mergeStates s sub).processed_count
        = s.results.length + sub.results.length
    ∧ (mergeStates s sub).total_urls = s.total_urls := by
  refine ⟨rfl, rfl, ?_, rfl⟩
  simp [mergeStates]

lemma sub_run_facts {cfg : RunCfg} (hcfg : NoPeriodicSaveFailure cfg)
    {evs : List TaskEvent} {s : BatchJobState}
    (hnodup : s.urls.Nodup)
    (hperm : (eventUrls evs).Perm s.remaining_urls)
    (jid2 : String) (mw : Nat) (az : Bool) (cd : Option ℚ) (dd : ℚ) :
    (runEvents cfg (initJobState jid2 s.remaining_urls mw az cd dd)
          evs).completed_urls
        ∪ (runEvents cfg (initJobState jid2 s.remaining_urls mw az cd dd)
          evs).failed_urls
      = (eventUrls evs).toFinset
    ∧ (runEvents cfg (initJobState jid2 s.remaining_urls mw az cd dd)
          evs).completed_urls.card
        + (runEvents cfg (initJobState jid2 s.remaining_urls mw az cd dd)
          evs).failed_urls.card
      = evs.length
    ∧ Disjoint
        (runEvents cfg (initJobState jid2 s.remaining_urls mw az cd dd)
          evs).completed_urls
        (runEvents cfg (initJobState jid2 s.remaining_urls mw az cd dd)
          evs).failed_urls
    ∧ (∀ x ∈ (eventUrls evs).toFinset,
        x ∉ s.completed_urls ∧ x ∉ s.failed_urls) := by
  have hnodupEv : (eventUrls evs).Nodup :=
    (hperm.nodup_iff).mpr (remaining_nodup hnodup)
  have hfresh : ∀ ev ∈ evs,
      ev.url ∉ (initJobState jid2 s.remaining_urls mw az cd dd).completed_urls
      ∧ ev.url ∉ (initJobState jid2 s.remaining_urls mw az cd dd).failed_urls := by
    intro ev _
    exact ⟨Finset.not_mem_empty _, Finset.not_mem_empty _⟩
  obtain ⟨hu, hc, hd⟩ := runEvents_sets hcfg evs
    (initJobState jid2 s.remaining_urls mw az cd dd) hnodupEv hfresh
  refine ⟨?_, ?_, hd (Finset.disjoint_empty_left _), ?_⟩
  · rw [hu]
    simp [initJobState]
  · rw [hc]
    simp [initJobState]
  · intro x hx
    rw [List.mem_toFinset] at hx
    exact (mem_remaining (hperm.mem_iff.mp hx)).2

lemma pct_bounds (s : BatchJobState) (h : s.processed_count ≤ s.total_urls) :
    0 ≤ s.completion_percentage ∧ s.completion_percentage ≤ 100
    ∧ (s.total_urls = 0 → s.completion_percentage = 0) := by
  unfold BatchJobState.completion_percentage
  by_cases h0 : s.total_urls = 0
  · simp [h0]
  · rw [if_neg h0]
    have ht : (0 : ℚ) < (s.total_urls : ℚ) := by
      exact_mod_cast Nat.pos_of_ne_zero h0
    have hp : (s.processed_count : ℚ) ≤ (s.total_urls : ℚ) := by
      exact_mod_cast h
    have hdiv : (s.processed_count : ℚ) / (s.total_urls : ℚ) ≤ 1 := by
      rw [div_le_one ht]
      exact hp
    have hdiv0 : 0 ≤ (s.processed_count : ℚ) / (s.total_urls : ℚ) := by
      positivity
    refine ⟨by positivity, by linarith, fun h' => absurd h' h0⟩

/-- C4 (amended): the counting invariant
processed_count = |completed_urls| + |failed_urls| holds — at every point
during the run, hence at every state passed to save_job_state and at
completion — provided the input URLs are pairwise distinct and no periodic
checkpoint write fails (duplicate URLs and failing checkpoint writes are
exactly the counterexamples). It is preserved by resume_batch_job when the
loaded state itself satisfies the invariants, every resumed task returns a
record, and the resumed events cover the remaining URLs exactly once. -/
theorem C4_amended :
    (∀ (cfg : RunCfg) (job_id : String) (urls : List String) (mw : Nat)
        (az : Bool) (cd : Option ℚ) (dd : ℚ) (pre suf : List TaskEvent),
      NoPeriodicSaveFailure cfg → urls.Nodup →
      (eventUrls (pre ++ suf)).Perm urls →
      (runEvents cfg (initJobState job_id urls mw az cd dd) pre).processed_count
        = (runEvents cfg (initJobState job_id urls mw az cd dd)
            pre).completed_urls.card
          + (runEvents cfg (initJobState job_id urls mw az cd dd)
            pre).failed_urls.card)
    ∧ (∀ (cfg : RunCfg) (job_id : String) (urls : List String) (mw : Nat)
        (az : Bool) (cd : Option ℚ) (dd : ℚ) (evs : List TaskEvent)
        (s : BatchJobState),
      NoPeriodicSaveFailure cfg → urls.Nodup →
      (eventUrls evs).Perm urls →
      process_batch cfg job_id urls mw az cd dd evs = Except.ok s →
      s.processed_count = s.completed_urls.card + s.failed_urls.card)
    ∧ (∀ (cfg : RunCfg) (store : StateStore) (job_id : String) (dd : ℚ)
        (evs : List TaskEvent) (s s' : BatchJobState),
      NoPeriodicSaveFailure cfg →
      load_job_state store job_id = some s →
      s.urls.Nodup →
      s.processed_count = s.completed_urls.card + s.failed_urls.card →
      s.results.length = s.completed_urls.card + s.failed_urls.card →
      (∀ ev ∈ evs, ev.outcome ≠ TaskOutcome.raised) →
      (eventUrls evs).Perm s.remaining_urls →
      resume_batch_job cfg store job_id dd evs = Except.ok s' →
      s'.processed_count = s'.completed_urls.card + s'.failed_urls.card) := by
  refine ⟨?_, ?_, ?_⟩
  · intro cfg job_id urls mw az cd dd pre suf hcfg hnodup hperm
    have hndAll : (eventUrls (pre ++ suf)).Nodup :=
      hperm.nodup_iff.mpr hnodup
    have happ : eventUrls (pre ++ suf) = eventUrls pre ++ eventUrls suf :=
      List.map_append _ _ _
    have hndPre : (eventUrls pre).Nodup :=
      List.Nodup.of_append_left (happ ▸ hndAll)
    have hfresh : ∀ ev ∈ pre,
        ev.url ∉ (initJobState job_id urls mw az cd dd).completed_urls
        ∧ ev.url ∉ (initJobState job_id urls mw az cd dd).failed_urls :=
      fun ev _ => ⟨Finset.not_mem_empty _, Finset.not_mem_empty _⟩
    obtain ⟨-, hcard, -⟩ := runEvents_sets hcfg pre
      (initJobState job_id urls mw az cd dd) hndPre hfresh
    rw [runEvents_processed_noFail hcfg, hcard]
    simp [initJobState]
  · intro cfg job_id urls mw az cd dd evs s hcfg hnodup hperm hok
    obtain ⟨-, hs⟩ := process_batch_ok hok
    rw [hs]
    show (runEvents cfg (initJobState job_id urls mw az cd dd)
        evs).processed_count
      = (runEvents cfg (initJobState job_id urls mw az cd dd)
          evs).completed_urls.card
        + (runEvents cfg (initJobState job_id urls mw az cd dd)
          evs).failed_urls.card
    have hndEv : (eventUrls evs).Nodup := hperm.nodup_iff.mpr hnodup
    have hfresh : ∀ ev ∈ evs,
        ev.url ∉ (initJobState job_id urls mw az cd dd).completed_urls
        ∧ ev.url ∉ (initJobState job_id urls mw az cd dd).failed_urls :=
      fun ev _ => ⟨Finset.not_mem_empty _, Finset.not_mem_empty _⟩
    obtain ⟨-, hcard, -⟩ := runEvents_sets hcfg evs
      (initJobState job_id urls mw az cd dd) hndEv hfresh
    rw [runEvents_processed_noFail hcfg, hcard]
    simp [initJobState]
  · intro cfg store job_id dd evs s s' hcfg hload hnodup hproc hresults
      hnoraise hperm hok
    rcases resume_cases hload hok with ⟨hrem, rfl⟩ | ⟨hfin, rfl⟩
    · exact hproc
    · obtain ⟨hXc, hXf, hXp, hXr, hXt⟩ := withLast_fields
        (runEvents cfg (initJobState (job_id ++ "_resume") s.remaining_urls
          s.max_workers s.analyze_robots (some s.delay_per_domain) dd) evs)
      obtain ⟨hmc, hmf, hmp, hmt⟩ := mergeStates_fields s _
      rw [hmc, hmf, hmp, hXc, hXf, hXr]
      obtain ⟨hUnion, hCard, hDisjSub, hFresh⟩ :=
        sub_run_facts hcfg hnodup hperm (job_id ++ "_resume") s.max_workers
          s.analyze_robots (some s.delay_per_domain) dd
      have hsubC : (runEvents cfg (initJobState (job_id ++ "_resume")
          s.remaining_urls s.max_workers s.analyze_robots
          (some s.delay_per_domain) dd) evs).completed_urls
          ⊆ (eventUrls evs).toFinset := by
        rw [← hUnion]
        exact Finset.subset_union_left
      have hsubF : (runEvents cfg (initJobState (job_id ++ "_resume")
          s.remaining_urls s.max_workers s.analyze_robots
          (some s.delay_per_domain) dd) evs).failed_urls
          ⊆ (eventUrls evs).toFinset := by
        rw [← hUnion]
        exact Finset.subset_union_right
      have hdC : Disjoint s.completed_urls
          (runEvents cfg (initJobState (job_id ++ "_resume") s.remaining_urls
            s.max_workers s.analyze_robots (some s.delay_per_domain) dd)
            evs).completed_urls :=
        Finset.disjoint_left.mpr fun a ha hb => (hFresh a (hsubC hb)).1 ha
      have hdF : Disjoint s.failed_urls
          (runEvents cfg (initJobState (job_id ++ "_resume") s.remaining_urls
            s.max_workers s.analyze_robots (some s.delay_per_domain) dd)
            evs).failed_urls :=
        Finset.disjoint_left.mpr fun a ha hb => (hFresh a (hsubF hb)).2 ha
      rw [Finset.card_union_of_disjoint hdC, Finset.card_union_of_disjoint hdF]
      have hRlen : (runEvents cfg (initJobState (job_id ++ "_resume")
          s.remaining_urls s.max_workers s.analyze_robots
          (some s.delay_per_domain) dd) evs).results.length = okCount evs := by
        rw [runEvents_results_length]
        simp [initJobState]
      rw [hRlen, okCount_eq_length hnoraise]
      omega

/-- Witness for C4 (amended), distinct single-URL batch, no disk failure. -/
theorem C4_witness :
    NoPeriodicSaveFailure cfgNoFail
    ∧ [urlA].Nodup
    ∧ (eventUrls ([evOkA] ++ [])).Perm [urlA]
    ∧ (runEvents cfgNoFail (initJobState "job1" [urlA] 5 true none 1)
          [evOkA]).processed_count
        = (runEvents cfgNoFail (initJobState "job1" [urlA] 5 true none 1)
            [evOkA]).completed_urls.card
          + (runEvents cfgNoFail (initJobState "job1" [urlA] 5 true none 1)
            [evOkA]).failed_urls.card :=
  ⟨⟨by decide, fun _ => rfl⟩, List.nodup_singleton urlA, List.Perm.refl _,
    C4_amended.1 cfgNoFail "job1" [urlA] 5 true none 1 [evOkA] []
      ⟨by decide, fun _ => rfl⟩ (List.nodup_singleton urlA)
      (List.Perm.refl _)⟩

/-- C5 (amended): completed_urls and failed_urls stay disjoint at every point
during process_batch and after resume_batch_job provided the input URLs are
pairwise distinct and no periodic checkpoint write fails (a duplicated URL
with one success and one failure, or a failing checkpoint write, are exactly
the ways the sets come to intersect); for resume the loaded state must itself
have disjoint sets and the resumed events cover the remaining URLs once. -/
theorem C5_amended :
    (∀ (cfg : RunCfg) (job_id : String) (urls : List String) (mw : Nat)
        (az : Bool) (cd : Option ℚ) (dd : ℚ) (pre suf : List TaskEvent),
      NoPeriodicSaveFailure cfg → urls.Nodup →
      (eventUrls (pre ++ suf)).Perm urls →
      Disjoint
        (runEvents cfg (initJobState job_id urls mw az cd dd)
          pre).completed_urls
        (runEvents cfg (initJobState job_id urls mw az cd dd)
          pre).failed_urls)
    ∧ (∀ (cfg : RunCfg) (store : StateStore) (job_id : String) (dd : ℚ)
        (evs : List TaskEvent) (s s' : BatchJobState),
      NoPeriodicSaveFailure cfg →
      load_job_state store job_id = some s →
      s.urls.Nodup →
      Disjoint s.completed_urls s.failed_urls →
      (eventUrls evs).Perm s.remaining_urls →
      resume_batch_job cfg store job_id dd evs = Except.ok s' →
      Disjoint s'.completed_urls s'.failed_urls) := by
  constructor
  · intro cfg job_id urls mw az cd dd pre suf hcfg hnodup hperm
    have hndAll : (eventUrls (pre ++ suf)).Nodup :=
      hperm.nodup_iff.mpr hnodup
    have happ : eventUrls (pre ++ suf) = eventUrls pre ++ eventUrls suf :=
      List.map_append _ _ _
    have hndPre : (eventUrls pre).Nodup :=
      List.Nodup.of_append_left (happ ▸ hndAll)
    have hfresh : ∀ ev ∈ pre,
        ev.url ∉ (initJobState job_id urls mw az cd dd).completed_urls
        ∧ ev.url ∉ (initJobState job_id urls mw az cd dd).failed_urls :=
      fun ev _ => ⟨Finset.not_mem_empty _, Finset.not_mem_empty _⟩
    obtain ⟨-, -, hd⟩ := runEvents_sets hcfg pre
      (initJobState job_id urls mw az cd dd) hndPre hfresh
    exact hd (Finset.disjoint_empty_left _)
  · intro cfg store job_id dd evs s s' hcfg hload hnodup hdisj hperm hok
    rcases resume_cases hload hok with ⟨hrem, rfl⟩ | ⟨hfin, rfl⟩
    · exact hdisj
    · obtain ⟨hXc, hXf, hXp, hXr, hXt⟩ := withLast_fields
        (runEvents cfg (initJobState (job_id ++ "_resume") s.remaining_urls
          s.max_workers s.analyze_robots (some s.delay_per_domain) dd) evs)
      obtain ⟨hmc, hmf, hmp, hmt⟩ := mergeStates_fields s _
      rw [hmc, hmf, hXc, hXf]
      obtain ⟨hUnion, hCard, hDisjSub, hFresh⟩ :=
        sub_run_facts hcfg hnodup hperm (job_id ++ "_resume") s.max_workers
          s.analyze_robots (some s.delay_per_domain) dd
      have hsubC : (runEvents cfg (initJobState (job_id ++ "_resume")
          s.remaining_urls s.max_workers s.analyze_robots
          (some s.delay_per_domain) dd) evs).completed_urls
          ⊆ (eventUrls evs).toFinset := by
        rw [← hUnion]
        exact Finset.subset_union_left
      have hsubF : (runEvents cfg (initJobState (job_id ++ "_resume")
          s.remaining_urls s.max_workers s.analyze_robots
          (some s.delay_per_domain) dd) evs).failed_urls
          ⊆ (eventUrls evs).toFinset := by
        rw [← hUnion]
        exact Finset.subset_union_right
      rw [Finset.disjoint_union_left]
      constructor
      · rw [Finset.disjoint_union_right]
        refine ⟨hdisj, ?_⟩
        exact Finset.disjoint_left.mpr fun a ha hb => (hFresh a (hsubF hb)).1 ha
      · rw [Finset.disjoint_union_right]
        constructor
        · exact Finset.disjoint_left.mpr fun a ha hb =>
            (hFresh a (hsubC ha)).2 hb
        · exact hDisjSub

/-- Witness for C5 (amended), distinct single-URL batch, no disk failure. -/
theorem C5_witness :
    NoPeriodicSaveFailure cfgNoFail
    ∧ [urlA].Nodup
    ∧ (eventUrls ([evOkA] ++ [])).Perm [urlA]
    ∧ Disjoint
        (runEvents cfgNoFail (initJobState "job1" [urlA] 5 true none 1)
          [evOkA]).completed_urls
        (runEvents cfgNoFail (initJobState "job1" [urlA] 5 true none 1)
          [evOkA]).failed_urls :=
  ⟨⟨by decide, fun _ => rfl⟩, List.nodup_singleton urlA, List.Perm.refl _,
    C5_amended.1 cfgNoFail "job1" [urlA] 5 true none 1 [evOkA] []
      ⟨by decide, fun _ => rfl⟩ (List.nodup_singleton urlA)
      (List.Perm.refl _)⟩

/-- C8 (amended): completion_percentage lies in [0, 100] (and equals 0 when
total_urls = 0) for every state reached during process_batch, provided no
periodic checkpoint write fails (a failing write double-counts a task, which
is exactly the counterexample), and for the state returned by
resume_batch_job provided the loaded state satisfies the size invariants of a
checkpoint (processed_count ≤ total_urls and
|results| + |remaining| ≤ total_urls) and one event arrives per remaining
URL. -/
theorem C8_amended :
    (∀ (cfg : RunCfg) (job_id : String) (urls : List String) (mw : Nat)
        (az : Bool) (cd : Option ℚ) (dd : ℚ) (pre suf : List TaskEvent),
      NoPeriodicSaveFailure cfg →
      (eventUrls (pre ++ suf)).Perm urls →
      (0 ≤ (runEvents cfg (initJobState job_id urls mw az cd dd)
            pre).completion_percentage
        ∧ (runEvents cfg (initJobState job_id urls mw az cd dd)
            pre).completion_percentage ≤ 100
        ∧ ((runEvents cfg (initJobState job_id urls mw az cd dd)
              pre).total_urls = 0 →
            (runEvents cfg (initJobState job_id urls mw az cd dd)
              pre).completion_percentage = 0)))
    ∧ (∀ (cfg : RunCfg) (store : StateStore) (job_id : String) (dd : ℚ)
        (evs : List TaskEvent) (s s' : BatchJobState),
      NoPeriodicSaveFailure cfg →
      load_job_state store job_id = some s →
      s.processed_count ≤ s.total_urls →
      s.results.length + s.remaining_urls.length ≤ s.total_urls →
      evs.length = s.remaining_urls.length →
      resume_batch_job cfg store job_id dd evs = Except.ok s' →
      (0 ≤ s'.completion_percentage ∧ s'.completion_percentage ≤ 100
        ∧ (s'.total_urls = 0 → s'.completion_percentage = 0))) := by
  constructor
  · intro cfg job_id urls mw az cd dd pre suf hcfg hperm
    refine pct_bounds _ ?_
    rw [runEvents_processed_noFail hcfg, runEvents_total]
    have hlen : (eventUrls (pre ++ suf)).length = urls.length :=
      hperm.length_eq
    rw [eventUrls, List.length_map, List.length_append] at hlen
    simp only [initJobState]
    omega
  · intro cfg store job_id dd evs s s' hcfg hload hple hspace hlen hok
    rcases resume_cases hload hok with ⟨hrem, rfl⟩ | ⟨hfin, rfl⟩
    · exact pct_bounds _ hple
    · refine pct_bounds _ ?_
      obtain ⟨hXc, hXf, hXp, hXr, hXt⟩ := withLast_fields
        (runEvents cfg (initJobState (job_id ++ "_resume") s.remaining_urls
          s.max_workers s.analyze_robots (some s.delay_per_domain) dd) evs)
      obtain ⟨hmc, hmf, hmp, hmt⟩ := mergeStates_fields s _
      rw [hmp, hmt, hXr]
      have hRlen : (runEvents cfg (initJobState (job_id ++ "_resume")
          s.remaining_urls s.max_workers s.analyze_robots
          (some s.delay_per_domain) dd) evs).results.length = okCount evs := by
        rw [runEvents_results_length]
        simp [initJobState]
      rw [hRlen]
      have h1 : okCount evs ≤ evs.length := okCount_le_length evs
      omega

/-- Witness for C8 (amended), single-URL batch, no disk failure. -/
theorem C8_witness :
    NoPeriodicSaveFailure cfgNoFail
    ∧ (eventUrls ([evOkA] ++ [])).Perm [urlA]
    ∧ (0 ≤ (runEvents cfgNoFail (initJobState "job1" [urlA] 5 true none 1)
          [evOkA]).completion_percentage
      ∧ (runEvents cfgNoFail (initJobState "job1" [urlA] 5 true none 1)
          [evOkA]).completion_percentage ≤ 100
      ∧ ((runEvents cfgNoFail (initJobState "job1" [urlA] 5 true none 1)
            [evOkA]).total_urls = 0 →
          (runEvents cfgNoFail (initJobState "job1" [urlA] 5 true none 1)
            [evOkA]).completion_percentage = 0)) :=
  ⟨⟨by decide, fun _ => rfl⟩, List.Perm.refl _,
    C8_amended.1 cfgNoFail "job1" [urlA] 5 true none 1 [evOkA] []
      ⟨by decide, fun _ => rfl⟩ (List.Perm.refl _)⟩

/-- Witness for C9: one robots-denied URL and one transport-failed URL. -/
theorem C9_witness :
    envDenied.canFetch urlA = false
    ∧ ((process_single_url envDenied urlA true none).success = false
      ∧ (process_single_url envDenied urlA true none).robots_allowed
          = some false
      ∧ (process_single_url envDenied urlA true none).error_type
          = some "robots_disallowed"
      ∧ urlA ∈ (stepEvent cfgNoFail sEmptyJob
          { url := urlA,
            outcome := TaskOutcome.ok
              (process_single_url envDenied urlA true none) }).failed_urls)
    ∧ envTransportFail.canFetch urlA = true
    ∧ envTransportFail.fetchResult urlA = none
    ∧ ((process_single_url envTransportFail urlA true none).success = false
      ∧ (process_single_url envTransportFail urlA true none).robots_allowed
          = some true
      ∧ (process_single_url envTransportFail urlA true none).error_type
          = some "request_failed") :=
  ⟨rfl,
    (C9_policy_denied_vs_transport envDenied urlA true none cfgNoFail
      sEmptyJob).1 rfl,
    rfl, rfl,
    (C9_policy_denied_vs_transport envTransportFail urlA true none cfgNoFail
      sEmptyJob).2 rfl rfl⟩
